import Mathlib

/-
Verification of the reservation engine in src/bot/room_manager.py (class
RoomManager) together with the recurring-booking loop of
src/bot/message_handler.py (_handle_recurring_booking_request).

Shallow embedding conventions:
- Python naive datetimes are modeled at minute precision (the source only
  ever constructs whole-minute times) as a calendar date plus minutes past
  midnight; Python datetime comparison is field-lexicographic, embedded
  as lexicographic Boolean comparisons.
- The mutable `self.rooms` dict (insertion ordered, unique keys) is an
  ordered list of rooms; dict lookup and in-place mutation of the room
  found by a key become first-match lookup and first-match update, which
  agree with dict semantics when keys are unique.
- `datetime.isoformat()` round-trips (`fromisoformat` is its inverse and
  it is injective), so the string comparisons the source performs on
  stored ISO timestamps are embedded as datetime equality.
- `_save_rooms` (file persistence) has no effect on the in-memory state
  the claims are about; the durable write is represented by the returned
  state itself.
- Python exceptions that the relevant code paths can raise (ValueError
  from `datetime.replace` in the monthly-recurrence arithmetic) are
  embedded as explicit error values.
-/

set_option maxRecDepth 8192

namespace RoomBooking

/-- Embeds Python str.upper as used on ASCII room identifiers
(book_room line 127). -/
def strUpper (s : String) : String := ⟨s.data.map Char.toUpper⟩

/-- Calendar date, the datetime.date component. -/
structure Date where
  year : Nat
  month : Nat
  day : Nat
deriving DecidableEq

/-- Naive local datetime: a date plus minutes past midnight. -/
structure DateTime where
  date : Date
  minute : Nat
deriving DecidableEq

/-- Lexicographic strict order on dates, as Python date comparison. -/
def Date.ltb (a b : Date) : Bool :=
  a.year < b.year ||
    (a.year == b.year &&
      (a.month < b.month || (a.month == b.month && a.day < b.day)))

/-- Non-strict date comparison. -/
def Date.leb (a b : Date) : Bool := a.ltb b || a == b

/-- Lexicographic strict order on datetimes, as Python datetime
comparison. -/
def DateTime.ltb (a b : DateTime) : Bool :=
  a.date.ltb b.date || (a.date == b.date && a.minute < b.minute)

/-- Non-strict datetime comparison. -/
def DateTime.leb (a b : DateTime) : Bool := a.ltb b || a == b

/-- Gregorian leap-year rule, as Python calendar.isleap. -/
def isLeap (y : Nat) : Bool := y % 4 == 0 && (y % 100 != 0 || y % 400 == 0)

/-- Number of days in a month of a given year. -/
def daysInMonth (y m : Nat) : Nat :=
  if m == 2 then (if isLeap y then 29 else 28)
  else if m == 4 || m == 6 || m == 9 || m == 11 then 30
  else 31

/-- The calendar day after a date. -/
def Date.next (d : Date) : Date :=
  if d.day < daysInMonth d.year d.month then ⟨d.year, d.month, d.day + 1⟩
  else if d.month < 12 then ⟨d.year, d.month + 1, 1⟩
  else ⟨d.year + 1, 1, 1⟩

/-- Adding days to a date, as timedelta(days=n) on the date component. -/
def Date.addDays (d : Date) : Nat → Date
  | 0 => d
  | n + 1 => (Date.next d).addDays n

/-- Adding minutes to a datetime, as start_time + timedelta(minutes=k). -/
def DateTime.addMinutes (t : DateTime) (k : Nat) : DateTime :=
  ⟨t.date.addDays ((t.minute + k) / 1440), (t.minute + k) % 1440⟩

/-- Adding whole days to a datetime, as cur + timedelta(days=n). -/
def DateTime.addDays (t : DateTime) (n : Nat) : DateTime :=
  ⟨t.date.addDays n, t.minute⟩

/-- One stored booking record, the dict appended by book_room
(room_manager.py lines 139-147). -/
structure Booking where
  start_time : DateTime
  end_time : DateTime
  duration_minutes : Nat
  event_name : String
  meeting_type : String
  contact_name : String
  user_id : String
deriving DecidableEq

/-- One room of the catalog (class Room, lines 7-12). -/
structure Room where
  room_id : String
  name : String
  capacity : Nat
  bookings : List Booking
deriving DecidableEq

/-- The in-memory state self.rooms: an insertion-ordered room catalog. -/
abbrev Catalog := List Room

/-- Dict lookup self.rooms[rid] and the membership test rid in self.rooms:
first room whose id equals the key. -/
def findRoom : Catalog → String → Option Room
  | [], _ => none
  | r :: rs, rid => if r.room_id == rid then some r else findRoom rs rid

/-- In-place mutation of the room object self.rooms[rid]: replace the
first room whose id equals the key. -/
def updateRoom : Catalog → String → (Room → Room) → Catalog
  | [], _, _ => []
  | r :: rs, rid, f =>
    if r.room_id == rid then f r :: rs else r :: updateRoom rs rid f

/-- Insert an element before the first strictly larger one, keeping it
after nothing equal that followed it in the original list. -/
def insertSorted (le : α → α → Bool) (a : α) : List α → List α
  | [] => [a]
  | x :: xs => if le a x then a :: x :: xs else x :: insertSorted le a xs

/-- Stable ascending sort. Python sorted and list.sort are stable sorts,
and a stable sort by a total key comparison has a unique output, so this
insertion sort computes exactly what the source computes. -/
def stableSortBy (le : α → α → Bool) : List α → List α
  | [] => []
  | x :: xs => insertSorted le x (stableSortBy le xs)

/-- get_room_schedule (lines 164-171): the room's bookings sorted by
start time; [] for an unknown room. -/
def getRoomSchedule (s : Catalog) (rid : String) : List Booking :=
  match findRoom s rid with
  | none => []
  | some r => stableSortBy (fun a b => a.start_time.leb b.start_time) r.bookings

/-- check_room_availability (lines 87-115): False for an unknown room,
otherwise False exactly when some existing booking satisfies
start_time < booking_end and end_time > booking_start. Pure: it only
reads the state. -/
def checkRoomAvailability (s : Catalog) (rid : String) (t : DateTime)
    (dur : Nat) : Bool :=
  match findRoom s rid with
  | none => false
  | some _ =>
    let endT := t.addMinutes dur
    !((getRoomSchedule s rid).any
        (fun b => t.ltb b.end_time && b.start_time.ltb endT))

/-- The confirmation dict returned by book_room on success
(lines 156-163). -/
structure BookingConfirmation where
  room_name : String
  start_time : DateTime
  end_time : DateTime
  event_name : String
deriving DecidableEq

/-- book_room (lines 123-163): uppercase the requested name, return
None leaving the state unchanged when that key is absent, otherwise
unconditionally append the new booking record to the room and return the
confirmation. Note the function performs no availability check of its
own. -/
def bookRoom (s : Catalog) (roomName : String) (t : DateTime) (dur : Nat)
    (eventName meetingType contactName userId : String) :
    Option BookingConfirmation × Catalog :=
  let rn := strUpper roomName
  match findRoom s rn with
  | none => (none, s)
  | some room =>
    let endT := t.addMinutes dur
    let nb : Booking :=
      { start_time := t, end_time := endT, duration_minutes := dur,
        event_name := eventName, meeting_type := meetingType,
        contact_name := contactName, user_id := userId }
    (some { room_name := room.name, start_time := t, end_time := endT,
            event_name := eventName },
     updateRoom s rn (fun r => { r with bookings := r.bookings ++ [nb] }))

/-- The four (bool, message) outcomes of cancel_booking
(lines 173-198). -/
inductive CancelResult where
  | roomNotFound
  | notAuthorized
  | cancelled (roomName : String)
  | noBookingFound
deriving DecidableEq

/-- Outcome of the scan loop inside cancel_booking. -/
inductive CancelScan where
  | unauthorized
  | removed (rest : List Booking)
  | notFound
deriving DecidableEq

/-- The loop of cancel_booking lines 184-195: find the first booking
whose stored start equals the requested start (ISO-string equality,
embedded as datetime equality); on an owner mismatch stop with
unauthorized, otherwise drop exactly that booking. -/
def cancelScan (t : DateTime) (userId : String) : List Booking → CancelScan
  | [] => .notFound
  | b :: bs =>
    if b.start_time == t then
      if b.user_id == userId then .removed bs else .unauthorized
    else
      match cancelScan t userId bs with
      | .removed rest => .removed (b :: rest)
      | r => r

/-- cancel_booking (lines 173-198). -/
def cancelBooking (s : Catalog) (rid : String) (t : DateTime)
    (userId : String) : CancelResult × Catalog :=
  match findRoom s rid with
  | none => (.roomNotFound, s)
  | some room =>
    match cancelScan t userId room.bookings with
    | .notFound => (.noBookingFound, s)
    | .unauthorized => (.notAuthorized, s)
    | .removed rest =>
      (.cancelled room.name,
       updateRoom s rid (fun r => { r with bookings := rest }))

/-- The cursor walk of get_available_slots lines 411-422: emit a gap
before each booking that starts after the cursor, advance the cursor by
max with the booking end, and emit the trailing gap. -/
def slotWalk (dayEnd : DateTime) :
    DateTime → List (DateTime × DateTime) → List (DateTime × DateTime)
  | cursor, [] => if cursor.ltb dayEnd then [(cursor, dayEnd)] else []
  | cursor, (bs, be) :: rest =>
    (if cursor.ltb bs then [(cursor, bs)] else []) ++
      slotWalk dayEnd (if cursor.ltb be then be else cursor) rest

/-- get_available_slots (lines 383-424): free gaps between 09:00 and
18:00, collecting the bookings whose start date or end date equals the
requested day, sorted by start. -/
def getAvailableSlots (s : Catalog) (rid : String) (d : Date) :
    List (DateTime × DateTime) :=
  match findRoom s rid with
  | none => []
  | some room =>
    let dayStart : DateTime := ⟨d, 9 * 60⟩
    let dayEnd : DateTime := ⟨d, 18 * 60⟩
    let dayBookings :=
      (room.bookings.filter
          (fun b => b.start_time.date == d || b.end_time.date == d)).map
        (fun b => (b.start_time, b.end_time))
    slotWalk dayEnd dayStart (stableSortBy (fun a b => a.1.leb b.1) dayBookings)

/-- The while loop of get_available_times_for_day lines 262-265, probing
hourly times while current <= end. The loop bound is fixed (start 09:00,
end 17:00 on the same date), so fuel 10 runs it to completion exactly. -/
def hourlyProbe (s : Catalog) (rid : String) (dur : Nat) (endT : DateTime) :
    Nat → DateTime → List DateTime
  | 0, _ => []
  | fuel + 1, cur =>
    if cur.leb endT then
      (if checkRoomAvailability s rid cur dur then [cur] else []) ++
        hourlyProbe s rid dur endT fuel (cur.addMinutes 60)
    else []

/-- get_available_times_for_day (lines 248-267): hourly candidate start
times between 09:00 and 17:00 inclusive at which the room is available;
[] for an unknown room. -/
def getAvailableTimesForDay (s : Catalog) (rid : String) (d : Date)
    (dur : Nat) : List DateTime :=
  match findRoom s rid with
  | none => []
  | some _ => hourlyProbe s rid dur ⟨d, 17 * 60⟩ 10 ⟨d, 9 * 60⟩

/-- The result dict of get_alternative_suggestions (lines 297-301); the
conflicting booking carries the room display name merged in by the
source. -/
structure Suggestions where
  conflicting_booking : Option (Booking × String)
  available_times : List DateTime
  other_rooms : List Room
deriving DecidableEq

/-- get_alternative_suggestions (lines 269-301): the first stored booking
whose interval contains the requested start (booking_start <= start <
booking_end), the hourly candidates for the requested day, and the other
rooms available at the requested interval, in catalog order. -/
def getAlternativeSuggestions (s : Catalog) (rid : String) (t : DateTime)
    (dur : Nat) : Suggestions :=
  let conflict :=
    match findRoom s rid with
    | none => none
    | some room =>
      match room.bookings.find?
          (fun b => b.start_time.leb t && t.ltb b.end_time) with
      | none => none
      | some b => some (b, room.name)
  { conflicting_booking := conflict,
    available_times := getAvailableTimesForDay s rid t.date dur,
    other_rooms :=
      s.filter (fun r =>
        !(r.room_id == rid) && checkRoomAvailability s r.room_id t dur) }

/-- The four recurrence frequencies the source loops accept. -/
inductive Frequency where
  | daily
  | weekly
  | biweekly
  | monthly
deriving DecidableEq

/-- Embeds datetime.replace(year=y, month=m) including the day-of-month
validation Python performs: replace raises ValueError (none here) when
the preserved day does not exist in the target month. -/
def replaceYearMonth (t : DateTime) (y m : Nat) : Option DateTime :=
  if 1 ≤ t.date.day && t.date.day ≤ daysInMonth y m then
    some ⟨⟨y, m, t.date.day⟩, t.minute⟩
  else none

/-- The per-frequency date increment shared by room_manager.py lines
476-486 and message_handler.py lines 407-419: fixed day steps, or for
monthly a month increment carrying the year on December, with the
day-of-month preserved and validated by replace. -/
def nextOccurrence (cur : DateTime) : Frequency → Option DateTime
  | .daily => some (cur.addDays 1)
  | .weekly => some (cur.addDays 7)
  | .biweekly => some (cur.addDays 14)
  | .monthly =>
    if cur.date.month == 12 then replaceYearMonth cur (cur.date.year + 1) 1
    else replaceYearMonth cur cur.date.year (cur.date.month + 1)

/-- Result of expanding the occurrence dates: the list, or the uncaught
ValueError the monthly arithmetic can raise, or exhausted fuel. -/
inductive ExpandResult where
  | ok (dates : List DateTime)
  | valueError
  | outOfFuel
deriving DecidableEq

/-- The date-expansion loop of message_handler.py lines 405-419: collect
occurrences while date(current) <= date(end_date), advancing by the
frequency step; a ValueError from the monthly replace aborts the whole
computation. -/
def expandDates : Nat → DateTime → DateTime → Frequency → ExpandResult
  | 0, _, _, _ => .outOfFuel
  | fuel + 1, cur, endD, freq =>
    if cur.date.leb endD.date then
      match nextOccurrence cur freq with
      | none => .valueError
      | some nxt =>
        match expandDates fuel nxt endD freq with
        | .ok ds => .ok (cur :: ds)
        | e => e
    else .ok []

/-- The per-date booking loop of message_handler.py lines 422-437: for
each occurrence in order, check availability and book on success,
recording the date as successful or failed and always continuing with
the remaining dates. -/
def bookEach (rid : String) (dur : Nat)
    (eventName meetingType contactName userId : String) :
    Catalog → List DateTime → List DateTime × List DateTime × Catalog
  | s, [] => ([], [], s)
  | s, d :: ds =>
    if checkRoomAvailability s rid d dur then
      let bkRes := bookRoom s rid d dur eventName meetingType contactName userId
      let rest := bookEach rid dur eventName meetingType contactName userId
        bkRes.2 ds
      match bkRes.1 with
      | some _ => (d :: rest.1, rest.2.1, rest.2.2)
      | none => (rest.1, d :: rest.2.1, rest.2.2)
    else
      let rest := bookEach rid dur eventName meetingType contactName userId s ds
      (rest.1, d :: rest.2.1, rest.2.2)

/-- Result of book_recurring_meetings: the successful and failed date
lists with the final state, or the uncaught ValueError from the monthly
arithmetic, or exhausted fuel. -/
inductive RecurResult where
  | ok (successful failedDates : List DateTime) (state : Catalog)
  | valueError
  | outOfFuel
deriving DecidableEq

/-- book_recurring_meetings (room_manager.py lines 454-488): the
interleaved loop that per occurrence checks availability, books when
available, records success or failure, and advances the date by the
frequency step. -/
def bookRecurringMeetings (rid : String) (dur : Nat)
    (eventName meetingType contactName userId : String) (endD : DateTime)
    (freq : Frequency) : Nat → Catalog → DateTime → RecurResult
  | 0, _, _ => .outOfFuel
  | fuel + 1, s, cur =>
    if cur.date.leb endD.date then
      let step :=
        if checkRoomAvailability s rid cur dur then
          bookRoom s rid cur dur eventName meetingType contactName userId
        else (none, s)
      match nextOccurrence cur freq with
      | none => .valueError
      | some nxt =>
        match bookRecurringMeetings rid dur eventName meetingType contactName
            userId endD freq fuel step.2 nxt with
        | .ok succ failedDates s2 =>
          match step.1 with
          | some _ => .ok (cur :: succ) failedDates s2
          | none => .ok succ (cur :: failedDates) s2
        | e => e
    else .ok [] [] s

/-- The strict half-open overlap test between two stored bookings. -/
def overlapB (a b : Booking) : Bool :=
  a.start_time.ltb b.end_time && b.start_time.ltb a.end_time

/-- A room's bookings are pairwise non-overlapping. -/
abbrev roomInvariant (r : Room) : Prop :=
  List.Pairwise (fun a b => overlapB a b = false) r.bookings

/-- Every room of the catalog satisfies the non-overlap invariant. -/
abbrev catalogInvariant (s : Catalog) : Prop := ∀ r ∈ s, roomInvariant r

/-- Every stored room id is its own uppercase form, as in the default
catalog created by _load_rooms (lines 61-67). -/
abbrev upperIds (s : Catalog) : Prop := ∀ r ∈ s, strUpper r.room_id = r.room_id

/-- One booking operation as issued by the engine's callers. -/
inductive Op where
  | book (rid : String) (t : DateTime) (dur : Nat)
      (eventName meetingType contactName userId : String)
  | cancel (rid : String) (t : DateTime) (userId : String)

/-- One caller step exactly as every call site performs it
(message_handler.py lines 117-125 and 426-431): check availability and
call book_room only when the check passes; cancel as-is. -/
def applyOp (s : Catalog) : Op → Catalog
  | .book rid t dur a b c u =>
    if checkRoomAvailability s rid t dur then (bookRoom s rid t dur a b c u).2
    else s
  | .cancel rid t u => (cancelBooking s rid t u).2

/-- A sequence of caller-guarded booking operations. -/
def applyOps (s : Catalog) : List Op → Catalog
  | [] => s
  | o :: os => applyOps (applyOp s o) os

/-- The default catalog seeded by _load_rooms (lines 61-67). -/
def defaultRooms : Catalog :=
  [{ room_id := "NEST", name := "The Nest", capacity := 30, bookings := [] },
   { room_id := "TREEHOUSE", name := "The Treehouse", capacity := 15,
     bookings := [] },
   { room_id := "LIGHTHOUSE", name := "The Lighthouse", capacity := 15,
     bookings := [] },
   { room_id := "RAVEN", name := "Raven", capacity := 4, bookings := [] },
   { room_id := "HUMMINGBIRD", name := "Hummingbird", capacity := 4,
     bookings := [] }]

/-- A fixed request time used by the concrete scenarios: 2024-11-04
10:00. -/
def t1000 : DateTime := ⟨⟨2024, 11, 4⟩, 600⟩

/-- A booking of NEST on 2024-11-04 from 10:00 to 11:00 owned by U1. -/
def nestBooking0 : Booking :=
  { start_time := t1000, end_time := ⟨⟨2024, 11, 4⟩, 660⟩,
    duration_minutes := 60, event_name := "Standup",
    meeting_type := "internal", contact_name := "Alice", user_id := "U1" }

/-- The NEST room holding that single booking. -/
def nestRoomBooked : Room :=
  { room_id := "NEST", name := "The Nest", capacity := 30,
    bookings := [nestBooking0] }

/-- The default catalog with one booking stored in NEST. -/
def bookedCatalog : Catalog := nestRoomBooked :: defaultRooms.tail

/-- A catalog whose single NEST booking spans 2024-11-03 09:00 to
2024-11-05 09:00, strictly covering all of 2024-11-04. -/
def spanCatalog : Catalog :=
  [{ room_id := "NEST", name := "The Nest", capacity := 30,
     bookings := [{ start_time := ⟨⟨2024, 11, 3⟩, 540⟩,
                    end_time := ⟨⟨2024, 11, 5⟩, 540⟩,
                    duration_minutes := 2880, event_name := "Offsite",
                    meeting_type := "internal", contact_name := "Alice",
                    user_id := "U1" }] }]

/-- A catalog with back-to-back NEST bookings 09:00-10:00 and
10:00-11:00 on 2024-11-04. -/
def btbCatalog : Catalog :=
  [{ room_id := "NEST", name := "The Nest", capacity := 30,
     bookings := [{ start_time := ⟨⟨2024, 11, 4⟩, 540⟩,
                    end_time := ⟨⟨2024, 11, 4⟩, 600⟩,
                    duration_minutes := 60, event_name := "A",
                    meeting_type := "internal", contact_name := "Alice",
                    user_id := "U1" },
                  { start_time := ⟨⟨2024, 11, 4⟩, 600⟩,
                    end_time := ⟨⟨2024, 11, 4⟩, 660⟩,
                    duration_minutes := 60, event_name := "B",
                    meeting_type := "internal", contact_name := "Bob",
                    user_id := "U2" }] }]

/-- A NEST room whose single booking 10:30-11:00 overlaps a 10:00
one-hour request without containing its start time. -/
def containRoom : Room :=
  { room_id := "NEST", name := "The Nest", capacity := 30,
    bookings := [{ start_time := ⟨⟨2024, 11, 4⟩, 630⟩,
                   end_time := ⟨⟨2024, 11, 4⟩, 660⟩,
                   duration_minutes := 30, event_name := "Quick",
                   meeting_type := "internal", contact_name := "Carol",
                   user_id := "U3" }] }

/-- The catalog holding only that room. -/
def containCatalog : Catalog := [containRoom]

/-- The C7 claim's collection rule, written from the claim's words: the
booking's half-open interval overlaps the calendar day, viewed as the
interval from the day's midnight to the next midnight. -/
def overlapsDay (b : Booking) (d : Date) : Bool :=
  b.start_time.ltb ⟨d.next, 0⟩ && DateTime.ltb ⟨d, 0⟩ b.end_time

/-- The C7 claim's whole algorithm, written from the claim's words:
collect the bookings whose interval overlaps the day, sort by start
ascending, walk the cursor from 09:00 to 18:00. -/
def getAvailableSlotsClaim (s : Catalog) (rid : String) (d : Date) :
    List (DateTime × DateTime) :=
  match findRoom s rid with
  | none => []
  | some room =>
    slotWalk ⟨d, 18 * 60⟩ ⟨d, 9 * 60⟩
      (stableSortBy (fun a b => a.1.leb b.1)
        ((room.bookings.filter (fun b => overlapsDay b d)).map
          (fun b => (b.start_time, b.end_time))))

/-- The collection rule the code actually applies: the booking's start
date or end date equals the requested day. -/
def touchesDay (b : Booking) (d : Date) : Bool :=
  b.start_time.date == d || b.end_time.date == d

/-- One step of the cursor walk phrased as a fold: emit the gap before
the booking when the cursor is behind its start, then advance the cursor
by max with the booking end. -/
def slotStep (p : List (DateTime × DateTime) × DateTime)
    (bk : DateTime × DateTime) : List (DateTime × DateTime) × DateTime :=
  ((if p.2.ltb bk.1 then p.1 ++ [(p.2, bk.1)] else p.1),
   (if p.2.ltb bk.2 then bk.2 else p.2))

/-- The cursor walk phrased as a left fold with a trailing gap. -/
def slotFold (dayStart dayEnd : DateTime)
    (bs : List (DateTime × DateTime)) : List (DateTime × DateTime) :=
  let p := bs.foldl slotStep ([], dayStart)
  if p.2.ltb dayEnd then p.1 ++ [(p.2, dayEnd)] else p.1

/-- The C7 amended algorithm: the gap walk over the bookings whose start
or end date equals the day, sorted by start. -/
def getAvailableSlotsAmended (s : Catalog) (rid : String) (d : Date) :
    List (DateTime × DateTime) :=
  match findRoom s rid with
  | none => []
  | some room =>
    slotFold ⟨d, 9 * 60⟩ ⟨d, 18 * 60⟩
      (stableSortBy (fun a b => a.1.leb b.1)
        ((room.bookings.filter (fun b => touchesDay b d)).map
          (fun b => (b.start_time, b.end_time))))

/-- The hourly candidate instants m, m plus 60, ..., m plus 60 n on a
day, used to characterize the fixed 09:00-17:00 probe loop. -/
def candList (d : Date) : Nat → Nat → List DateTime
  | m, 0 => [⟨d, m⟩]
  | m, n + 1 => ⟨d, m⟩ :: candList d (m + 60) n

/-- The four weekly occurrence dates of the concrete recurrence test:
Nov 4, 11, 18, 25 of 2024, at 09:00. -/
def novDates : List DateTime :=
  [⟨⟨2024, 11, 4⟩, 540⟩, ⟨⟨2024, 11, 11⟩, 540⟩, ⟨⟨2024, 11, 18⟩, 540⟩,
   ⟨⟨2024, 11, 25⟩, 540⟩]

theorem mem_insertSorted (le : α → α → Bool) (a b : α) (l : List α) :
    a ∈ insertSorted le b l ↔ a = b ∨ a ∈ l := by
  induction l with
  | nil => simp [insertSorted]
  | cons x xs ih =>
    cases hle : le b x with
    | true => simp [insertSorted, hle]
    | false =>
      simp only [insertSorted, hle, Bool.false_eq_true, if_false,
        List.mem_cons, ih]
      tauto

theorem mem_stableSortBy (le : α → α → Bool) (a : α) (l : List α) :
    a ∈ stableSortBy le l ↔ a ∈ l := by
  induction l with
  | nil => simp [stableSortBy]
  | cons x xs ih => simp [stableSortBy, mem_insertSorted, ih]

theorem findRoom_mem {s : Catalog} {rid : String} {r : Room}
    (h : findRoom s rid = some r) : r ∈ s := by
  induction s with
  | nil => simp [findRoom] at h
  | cons x xs ih =>
    simp only [findRoom] at h
    by_cases hx : (x.room_id == rid) = true
    · rw [if_pos hx] at h
      injection h with h2
      simp [h2]
    · rw [if_neg hx] at h
      exact List.mem_cons_of_mem x (ih h)

theorem findRoom_id {s : Catalog} {rid : String} {r : Room}
    (h : findRoom s rid = some r) : r.room_id = rid := by
  induction s with
  | nil => simp [findRoom] at h
  | cons x xs ih =>
    simp only [findRoom] at h
    by_cases hx : (x.room_id == rid) = true
    · rw [if_pos hx] at h
      injection h with h2
      rw [← h2]
      exact eq_of_beq hx
    · rw [if_neg hx] at h
      exact ih h

theorem mem_updateRoom {s : Catalog} {rid : String} {f : Room → Room}
    {r2 : Room} (h : r2 ∈ updateRoom s rid f) :
    r2 ∈ s ∨ ∃ r, findRoom s rid = some r ∧ r2 = f r := by
  induction s with
  | nil => simp [updateRoom] at h
  | cons x xs ih =>
    simp only [updateRoom] at h
    by_cases hx : (x.room_id == rid) = true
    · rw [if_pos hx] at h
      rcases List.mem_cons.mp h with h1 | h1
      · right
        exact ⟨x, by simp [findRoom, hx], h1⟩
      · left
        exact List.mem_cons_of_mem x h1
    · rw [if_neg hx] at h
      rcases List.mem_cons.mp h with h1 | h1
      · left
        simp [h1]
      · rcases ih h1 with h2 | ⟨r, hr, he⟩
        · left
          exact List.mem_cons_of_mem x h2
        · right
          exact ⟨r, by simp [findRoom, hx, hr], he⟩

theorem mem_updateRoom_of_ne {s : Catalog} {rid : String} {f : Room → Room}
    {r2 : Room} (h : r2 ∈ s) (hne : r2.room_id ≠ rid) :
    r2 ∈ updateRoom s rid f := by
  induction s with
  | nil => simp at h
  | cons x xs ih =>
    rcases List.mem_cons.mp h with h1 | h1
    · have hx : (x.room_id == rid) = false := by
        rw [← h1]
        exact beq_eq_false_iff_ne.mpr hne
      simp [updateRoom, hx, h1]
    · by_cases hx : (x.room_id == rid) = true
      · simp only [updateRoom, if_pos hx]
        exact List.mem_cons_of_mem (f x) h1
      · simp only [updateRoom, if_neg hx]
        exact List.mem_cons_of_mem x (ih h1)

theorem findRoom_updateRoom {s : Catalog} {rid : String} {f : Room → Room}
    (hf : ∀ r, (f r).room_id = r.room_id) :
    findRoom (updateRoom s rid f) rid = (findRoom s rid).map f := by
  induction s with
  | nil => simp [updateRoom, findRoom]
  | cons x xs ih =>
    by_cases hx : (x.room_id == rid) = true
    · simp [updateRoom, findRoom, hx, hf]
    · simp [updateRoom, findRoom, hx, ih]

theorem check_some_of_true {s : Catalog} {rid : String} {t : DateTime}
    {dur : Nat} (h : checkRoomAvailability s rid t dur = true) :
    ∃ r, findRoom s rid = some r := by
  unfold checkRoomAvailability at h
  cases hf : findRoom s rid with
  | none =>
    rw [hf] at h
    simp at h
  | some r => exact ⟨r, rfl⟩

theorem getRoomSchedule_mem {s : Catalog} {rid : String} {r : Room}
    (hr : findRoom s rid = some r) (b : Booking) :
    b ∈ getRoomSchedule s rid ↔ b ∈ r.bookings := by
  unfold getRoomSchedule
  rw [hr]
  exact mem_stableSortBy _ _ _

theorem check_true_no_overlap {s : Catalog} {rid : String} {t : DateTime}
    {dur : Nat} {r : Room} (hr : findRoom s rid = some r)
    (h : checkRoomAvailability s rid t dur = true) :
    ∀ b ∈ r.bookings,
      (t.ltb b.end_time && b.start_time.ltb (t.addMinutes dur)) = false := by
  intro b hb
  unfold checkRoomAvailability at h
  rw [hr] at h
  simp only [Bool.not_eq_true'] at h
  exact Bool.of_not_eq_true
    (List.any_eq_false.mp h b ((getRoomSchedule_mem hr b).mpr hb))

theorem cancelScan_notFound_of {t : DateTime} {uid : String}
    {bs : List Booking} (h : ∀ x ∈ bs, x.start_time ≠ t) :
    cancelScan t uid bs = .notFound := by
  induction bs with
  | nil => rfl
  | cons b bs ih =>
    have hb : (b.start_time == t) = false :=
      beq_eq_false_iff_ne.mpr (h b (List.mem_cons_self b bs))
    have ih2 := ih (fun x hx => h x (List.mem_cons_of_mem b hx))
    simp [cancelScan, hb, ih2]

theorem cancelScan_removed {t : DateTime} {uid : String}
    {bs rest : List Booking} (h : cancelScan t uid bs = .removed rest) :
    ∃ pre b post, bs = pre ++ b :: post ∧ rest = pre ++ post ∧
      b.start_time = t ∧ b.user_id = uid ∧ ∀ x ∈ pre, x.start_time ≠ t := by
  induction bs generalizing rest with
  | nil => simp [cancelScan] at h
  | cons b bs ih =>
    by_cases hb : (b.start_time == t) = true
    · by_cases hu : (b.user_id == uid) = true
      · simp only [cancelScan, if_pos hb, if_pos hu, CancelScan.removed.injEq] at h
        exact ⟨[], b, bs, by simp, by simp [h], eq_of_beq hb, eq_of_beq hu,
          by simp⟩
      · simp [cancelScan, hb, hu] at h
    · simp only [cancelScan, if_neg hb] at h
      cases hc : cancelScan t uid bs with
      | removed rest2 =>
        rw [hc] at h
        simp only [CancelScan.removed.injEq] at h
        obtain ⟨pre, b2, post, h1, h2, h3, h4, h5⟩ := ih hc
        refine ⟨b :: pre, b2, post, by simp [h1], ?_, h3, h4, ?_⟩
        · rw [← h, h2]
          simp
        · intro x hx
          rcases List.mem_cons.mp hx with h6 | h6
          · rw [h6]
            exact (beq_eq_false_iff_ne.mp (Bool.of_not_eq_true hb))
          · exact h5 x h6
      | unauthorized =>
        rw [hc] at h
        simp at h
      | notFound =>
        rw [hc] at h
        simp at h

theorem cancelScan_decomp (t : DateTime) (uid : String)
    (pre post : List Booking) (b : Booking)
    (hpre : ∀ x ∈ pre, x.start_time ≠ t) (hb : b.start_time = t) :
    cancelScan t uid (pre ++ b :: post) =
      if b.user_id == uid then .removed (pre ++ post)
      else .unauthorized := by
  induction pre with
  | nil =>
    have hb2 : (b.start_time == t) = true := beq_iff_eq.mpr hb
    by_cases hu : (b.user_id == uid) = true
    · simp [cancelScan, hb2, hu]
    · simp [cancelScan, hb2, hu]
  | cons x xs ih =>
    have hx : (x.start_time == t) = false :=
      beq_eq_false_iff_ne.mpr (hpre x (List.mem_cons_self x xs))
    have ih2 := ih (fun y hy => hpre y (List.mem_cons_of_mem x hy))
    by_cases hu : (b.user_id == uid) = true
    · simp [cancelScan, hx, ih2, hu]
    · simp [cancelScan, hx, ih2, hu]

theorem applyOp_preserves {s : Catalog} (o : Op)
    (hids : upperIds s) (hinv : catalogInvariant s) :
    upperIds (applyOp s o) ∧ catalogInvariant (applyOp s o) := by
  cases o with
  | book rid t dur a b c u =>
    by_cases hchk : checkRoomAvailability s rid t dur = true
    · obtain ⟨r0, hr0⟩ := check_some_of_true hchk
      have hno := check_true_no_overlap hr0 hchk
      have hid0 : r0.room_id = rid := findRoom_id hr0
      have hup : strUpper rid = rid := by
        rw [← hid0]
        exact hids r0 (findRoom_mem hr0)
      simp only [applyOp, if_pos hchk, bookRoom, hup, hr0]
      constructor
      · intro r2 h2
        rcases mem_updateRoom h2 with h3 | ⟨r, hr, he⟩
        · exact hids r2 h3
        · rw [hr0] at hr
          injection hr with hr
          subst hr
          subst he
          exact hids r0 (findRoom_mem hr0)
      · intro r2 h2
        rcases mem_updateRoom h2 with h3 | ⟨r, hr, he⟩
        · exact hinv r2 h3
        · rw [hr0] at hr
          injection hr with hr
          subst hr
          subst he
          have hpw : roomInvariant r0 := hinv r0 (findRoom_mem hr0)
          refine List.pairwise_append.mpr ⟨hpw, List.pairwise_singleton _ _, ?_⟩
          intro x hx nb hnb
          rcases List.mem_singleton.mp hnb with h4
          subst h4
          have h5 := hno x hx
          simp only [overlapB]
          rw [Bool.and_comm]
          exact h5
    · have hchk2 : checkRoomAvailability s rid t dur = false :=
        Bool.of_not_eq_true hchk
      simp only [applyOp, hchk2, Bool.false_eq_true, if_false]
      exact ⟨hids, hinv⟩
  | cancel rid t u =>
    cases hf : findRoom s rid with
    | none =>
      simp only [applyOp, cancelBooking, hf]
      exact ⟨hids, hinv⟩
    | some room =>
      cases hscan : cancelScan t u room.bookings with
      | notFound =>
        simp only [applyOp, cancelBooking, hf, hscan]
        exact ⟨hids, hinv⟩
      | unauthorized =>
        simp only [applyOp, cancelBooking, hf, hscan]
        exact ⟨hids, hinv⟩
      | removed rest =>
        simp only [applyOp, cancelBooking, hf, hscan]
        obtain ⟨pre, b2, post, h1, h2, h3, h4, h5⟩ := cancelScan_removed hscan
        constructor
        · intro r2 hmem
          rcases mem_updateRoom hmem with h6 | ⟨r, hr, he⟩
          · exact hids r2 h6
          · subst he
            exact hids r (findRoom_mem hr)
        · intro r2 hmem
          rcases mem_updateRoom hmem with h6 | ⟨r, hr, he⟩
          · exact hinv r2 h6
          · subst he
            rw [hf] at hr
            injection hr with hr
            subst hr
            have hpw : roomInvariant room := hinv room (findRoom_mem hf)
            have hsub : List.Sublist rest room.bookings := by
              rw [h1, h2]
              exact List.Sublist.append (List.Sublist.refl pre)
                (List.sublist_cons_self b2 post)
            exact List.Pairwise.sublist hsub hpw

/-- C1: the claim as stated is false on the code: book_room itself
performs no availability check, so two direct book_room calls for the
same NEST slot take the default catalog, which satisfies the pairwise
non-overlap invariant, to a state that violates it. -/
theorem book_cancel_invariant_counterexample :
    catalogInvariant defaultRooms ∧
    ¬ catalogInvariant
        (bookRoom
          (bookRoom defaultRooms "NEST" t1000 60 "A" "internal" "Ann" "U1").2
          "NEST" t1000 60 "B" "internal" "Bob" "U2").2 :=
  ⟨by decide, by decide⟩

/-- C1 (amended): for a catalog whose stored room ids are uppercase (as
in the default catalog), any sequence of caller-guarded Book steps
(check_room_availability immediately followed by book_room only when the
check passes, which is how every call site invokes it) and Cancel steps
preserves the pairwise non-overlap invariant of every room. -/
theorem book_cancel_invariant_amended :
    ∀ (ops : List Op) (s : Catalog),
      upperIds s → catalogInvariant s → catalogInvariant (applyOps s ops) := by
  intro ops
  induction ops with
  | nil =>
    intro s _ h2
    exact h2
  | cons o os ih =>
    intro s h1 h2
    have h := applyOp_preserves o h1 h2
    exact ih (applyOp s o) h.1 h.2

/-- C1 witness: the amended theorem applied to a concrete guarded
book-book-cancel sequence on the default catalog. -/
theorem book_cancel_invariant_witness :
    upperIds defaultRooms ∧ catalogInvariant defaultRooms ∧
    catalogInvariant (applyOps defaultRooms
      [.book "NEST" t1000 60 "A" "internal" "Ann" "U1",
       .book "NEST" t1000 60 "B" "internal" "Bob" "U2",
       .cancel "NEST" t1000 "U1"]) :=
  ⟨by decide, by decide,
   book_cancel_invariant_amended
     [.book "NEST" t1000 60 "A" "internal" "Ann" "U1",
      .book "NEST" t1000 60 "B" "internal" "Bob" "U2",
      .cancel "NEST" t1000 "U1"] defaultRooms (by decide) (by decide)⟩

/-- C2: evaluation of book_room at the failing input. With NEST already
booked 10:00-11:00 the availability check reports a conflict, yet
book_room for the identical interval succeeds and appends a second,
overlapping booking instead of failing with a conflict error: the code
contains no re-check before mutating. -/
theorem book_room_no_conflict_check :
    checkRoomAvailability bookedCatalog "NEST" t1000 60 = false ∧
    (bookRoom bookedCatalog "NEST" t1000 60 "Planning" "internal" "Bob"
        "U2").1.isSome = true ∧
    ¬ catalogInvariant
        (bookRoom bookedCatalog "NEST" t1000 60 "Planning" "internal" "Bob"
          "U2").2 :=
  ⟨by decide, by decide, by decide⟩

/-- C3: check_room_availability returns false for an unknown room id,
otherwise returns false exactly when some stored booking of the room
overlaps the requested half-open interval under the strict rule
request.start < booking.end and booking.start < request.end; the
back-to-back conjunct shows a request starting exactly at a booking end
does not conflict. State is never modified: the embedding of the
function is a pure Boolean reader of the catalog. -/
theorem check_room_availability_correct :
    ∀ (s : Catalog) (rid : String) (t : DateTime) (dur : Nat),
      (findRoom s rid = none → checkRoomAvailability s rid t dur = false) ∧
      (∀ r, findRoom s rid = some r →
        (checkRoomAvailability s rid t dur = false ↔
          ∃ b ∈ r.bookings,
            (t.ltb b.end_time && b.start_time.ltb (t.addMinutes dur)) =
              true)) := by
  intro s rid t dur
  constructor
  · intro h
    simp [checkRoomAvailability, h]
  · intro r hr
    unfold checkRoomAvailability
    rw [hr]
    simp only [Bool.not_eq_false']
    rw [List.any_eq_true]
    constructor
    · rintro ⟨b, hb, hp⟩
      exact ⟨b, (getRoomSchedule_mem hr b).mp hb, hp⟩
    · rintro ⟨b, hb, hp⟩
      exact ⟨b, (getRoomSchedule_mem hr b).mpr hb, hp⟩

/-- C3 witness: the characterization applied to the booked catalog at
the occupied 10:00 slot, and the unknown-room case. -/
theorem check_room_availability_witness :
    (checkRoomAvailability bookedCatalog "NEST" t1000 60 = false ↔
      ∃ b ∈ nestBooking0 :: ([] : List Booking),
        (t1000.ltb b.end_time &&
          b.start_time.ltb (t1000.addMinutes 60)) = true) ∧
    checkRoomAvailability bookedCatalog "ATTIC" t1000 60 = false :=
  ⟨by
    have h := (check_room_availability_correct bookedCatalog "NEST" t1000
      60).2 { room_id := "NEST", name := "The Nest", capacity := 30,
              bookings := [nestBooking0] } (by decide)
    exact h,
   (check_room_availability_correct bookedCatalog "ATTIC" t1000 60).1
     (by decide)⟩

/-- C6: evaluation of the monthly recurrence arithmetic at the failing
input. Advancing 2024-01-31 by one month fails (February has no day 31):
the embedded replace returns the ValueError marker and the whole
expansion, and book_recurring_meetings itself, abort with an uncaught
ValueError rather than any structured recurrence error; the two positive
conjuncts show the month advance does preserve the day unclamped and
carries the year on December. -/
theorem monthly_overflow_crash :
    nextOccurrence ⟨⟨2024, 1, 31⟩, 600⟩ .monthly = none ∧
    expandDates 100 ⟨⟨2024, 1, 31⟩, 600⟩ ⟨⟨2024, 3, 31⟩, 600⟩ .monthly =
      .valueError ∧
    nextOccurrence ⟨⟨2024, 12, 15⟩, 600⟩ .monthly =
      some ⟨⟨2025, 1, 15⟩, 600⟩ ∧
    nextOccurrence ⟨⟨2024, 4, 30⟩, 600⟩ .monthly =
      some ⟨⟨2024, 5, 30⟩, 600⟩ ∧
    bookRecurringMeetings "NEST" 60 "Sync" "internal" "Ann" "U1"
      ⟨⟨2024, 3, 31⟩, 600⟩ .monthly 100 defaultRooms
      ⟨⟨2024, 1, 31⟩, 600⟩ = .valueError :=
  ⟨by decide, by decide, by decide, by decide, by decide⟩

/-- C9: the claim as stated is false on the code: with the default
catalog free at 10:00, the availability check on the stored id NEST
returns true but on the lowercase variant nest returns false, and
cancelling the stored NEST booking through the lowercase variant fails
with room-not-found while the canonical id succeeds; only book_room
uppercases its argument. -/
theorem case_insensitivity_counterexample :
    checkRoomAvailability defaultRooms "NEST" t1000 60 = true ∧
    checkRoomAvailability defaultRooms "nest" t1000 60 = false ∧
    (cancelBooking bookedCatalog "NEST" t1000 "U1").1 =
      .cancelled "The Nest" ∧
    (cancelBooking bookedCatalog "nest" t1000 "U1").1 = .roomNotFound ∧
    (bookRoom defaultRooms "nest" t1000 60 "Sync" "internal" "Ann"
        "U1").1.isSome = true :=
  ⟨by decide, by decide, by decide, by decide, by decide⟩

/-- C9 (amended): only Book is case-insensitive: book_room sends any two
ids with the same uppercase form to the same result, while
check_room_availability and cancel_booking use the id verbatim and treat
a lowercase variant as an unknown room. -/
theorem case_insensitivity_amended :
    (∀ (s : Catalog) (v rid : String) (t : DateTime) (dur : Nat)
        (a b c u : String), strUpper v = strUpper rid →
      bookRoom s v t dur a b c u = bookRoom s rid t dur a b c u) ∧
    checkRoomAvailability defaultRooms "nest" t1000 60 = false ∧
    cancelBooking bookedCatalog "nest" t1000 "U1" =
      (.roomNotFound, bookedCatalog) := by
  refine ⟨?_, by decide, by decide⟩
  intro s v rid t dur a b c u h
  simp only [bookRoom, h]

/-- C4: with the room found under rid, cancel_booking returns
no-booking-found leaving the state unchanged when no stored booking
starts exactly at t; when the first booking starting at t is owned by a
different user it returns not-authorized leaving the state (and so that
booking) unchanged; when that booking is owned by the requester it is
removed and the catalog updated; and, for a room satisfying the
non-overlap invariant with nonempty intervals, a second cancellation of
the same start time after a successful one always returns
no-booking-found. -/
theorem cancel_booking_error_paths :
    ∀ (s : Catalog) (rid : String) (t : DateTime) (uid : String) (r : Room),
      findRoom s rid = some r →
      ((∀ x ∈ r.bookings, x.start_time ≠ t) →
        cancelBooking s rid t uid = (.noBookingFound, s)) ∧
      (∀ pre bk post, r.bookings = pre ++ bk :: post →
        (∀ x ∈ pre, x.start_time ≠ t) → bk.start_time = t →
        (bk.user_id ≠ uid →
          cancelBooking s rid t uid = (.notAuthorized, s)) ∧
        (bk.user_id = uid →
          cancelBooking s rid t uid =
            (.cancelled r.name,
             updateRoom s rid
               (fun rr => { rr with bookings := pre ++ post })))) ∧
      (roomInvariant r →
        (∀ x ∈ r.bookings, x.start_time.ltb x.end_time = true) →
        ∀ s2, cancelBooking s rid t uid = (.cancelled r.name, s2) →
          cancelBooking s2 rid t uid = (.noBookingFound, s2)) := by
  intro s rid t uid r hr
  refine ⟨?_, ?_, ?_⟩
  · intro h
    simp only [cancelBooking, hr, cancelScan_notFound_of h]
  · intro pre bk post hdec hpre hbk
    have hscan := cancelScan_decomp t uid pre post bk hpre hbk
    constructor
    · intro hne
      have hu : (bk.user_id == uid) = false := beq_eq_false_iff_ne.mpr hne
      have hscan2 : cancelScan t uid (pre ++ bk :: post) = .unauthorized := by
        rw [hscan, hu]
        simp
      simp only [cancelBooking, hr, hdec, hscan2]
    · intro heq
      have hu : (bk.user_id == uid) = true := beq_iff_eq.mpr heq
      have hscan2 : cancelScan t uid (pre ++ bk :: post) =
          .removed (pre ++ post) := by
        rw [hscan, hu]
        simp
      simp only [cancelBooking, hr, hdec, hscan2]
  · intro hinv hne s2 hsucc
    cases hscan : cancelScan t uid r.bookings with
    | notFound =>
      simp only [cancelBooking, hr, hscan] at hsucc
      exact absurd hsucc (by simp)
    | unauthorized =>
      simp only [cancelBooking, hr, hscan] at hsucc
      exact absurd hsucc (by simp)
    | removed rest =>
      simp only [cancelBooking, hr, hscan, Prod.mk.injEq] at hsucc
      obtain ⟨-, hs2⟩ := hsucc
      obtain ⟨pre, bk, post, h1, h2, h3, h4, h5⟩ := cancelScan_removed hscan
      have hrest : ∀ x ∈ rest, x.start_time ≠ t := by
        intro x hx
        rw [h2] at hx
        rcases List.mem_append.mp hx with hxp | hxq
        · exact h5 x hxp
        · intro hxeq
          have hpw : List.Pairwise (fun a b => overlapB a b = false)
              r.bookings := hinv
          rw [h1] at hpw
          have hpw2 := (List.pairwise_append.mp hpw).2.1
          have hrel := (List.pairwise_cons.mp hpw2).1 x hxq
          have hbkne : bk.start_time.ltb bk.end_time = true := by
            apply hne
            rw [h1]
            exact List.mem_append_right pre (List.mem_cons_self bk post)
          have hxne : x.start_time.ltb x.end_time = true := by
            apply hne
            rw [h1]
            exact List.mem_append_right pre
              (List.mem_cons_of_mem bk hxq)
          rw [h3] at hbkne
          rw [hxeq] at hxne
          unfold overlapB at hrel
          rw [h3, hxeq, hxne, hbkne] at hrel
          simp at hrel
      have hffind : findRoom s2 rid = some { r with bookings := rest } := by
        rw [← hs2]
        rw [findRoom_updateRoom (by intro rr; rfl), hr]
        rfl
      have hscan2 :
          cancelScan t uid ({ r with bookings := rest } : Room).bookings =
            .notFound := cancelScan_notFound_of hrest
      simp only [cancelBooking, hffind, hscan2]

/-- C4 witness: the three error paths and the second-cancellation rule
exercised on the booked catalog. -/
theorem cancel_booking_error_paths_witness :
    cancelBooking bookedCatalog "NEST" ⟨⟨2024, 11, 4⟩, 720⟩ "U1" =
      (.noBookingFound, bookedCatalog) ∧
    cancelBooking bookedCatalog "NEST" t1000 "U2" =
      (.notAuthorized, bookedCatalog) ∧
    cancelBooking bookedCatalog "NEST" t1000 "U1" =
      (.cancelled "The Nest",
       updateRoom bookedCatalog "NEST"
         (fun rr => { rr with bookings := [] ++ [] })) ∧
    cancelBooking (cancelBooking bookedCatalog "NEST" t1000 "U1").2 "NEST"
        t1000 "U1" =
      (.noBookingFound, (cancelBooking bookedCatalog "NEST" t1000 "U1").2) :=
  ⟨(cancel_booking_error_paths bookedCatalog "NEST" ⟨⟨2024, 11, 4⟩, 720⟩
      "U1" nestRoomBooked (by decide)).1 (by decide),
   ((cancel_booking_error_paths bookedCatalog "NEST" t1000 "U2"
      nestRoomBooked (by decide)).2.1 [] nestBooking0 [] rfl (by decide)
      (by decide)).1 (by decide),
   ((cancel_booking_error_paths bookedCatalog "NEST" t1000 "U1"
      nestRoomBooked (by decide)).2.1 [] nestBooking0 [] rfl (by decide)
      (by decide)).2 rfl,
   (cancel_booking_error_paths bookedCatalog "NEST" t1000 "U1"
      nestRoomBooked (by decide)).2.2 (by decide) (by decide)
      (cancelBooking bookedCatalog "NEST" t1000 "U1").2 (by decide)⟩

/-- C10: when cancel_booking does not succeed, the catalog is returned
unchanged; when it succeeds, the new catalog is exactly the old one with
the first stored booking of the addressed room whose start equals t
removed (the bookings before it having different starts), and every room
with a different id is still present unchanged. -/
theorem cancel_frame :
    ∀ (s : Catalog) (rid : String) (t : DateTime) (uid : String),
      ((∀ nm, (cancelBooking s rid t uid).1 ≠ .cancelled nm) →
        (cancelBooking s rid t uid).2 = s) ∧
      (∀ nm s2, cancelBooking s rid t uid = (.cancelled nm, s2) →
        ∃ r pre bk post, findRoom s rid = some r ∧ nm = r.name ∧
          r.bookings = pre ++ bk :: post ∧
          (∀ x ∈ pre, x.start_time ≠ t) ∧ bk.start_time = t ∧
          bk.user_id = uid ∧
          s2 = updateRoom s rid
            (fun rr => { rr with bookings := pre ++ post }) ∧
          (∀ r2 ∈ s, r2.room_id ≠ rid → r2 ∈ s2)) := by
  intro s rid t uid
  constructor
  · intro h
    cases hf : findRoom s rid with
    | none => simp only [cancelBooking, hf]
    | some room =>
      cases hscan : cancelScan t uid room.bookings with
      | notFound => simp only [cancelBooking, hf, hscan]
      | unauthorized => simp only [cancelBooking, hf, hscan]
      | removed rest =>
        exfalso
        apply h room.name
        simp only [cancelBooking, hf, hscan]
  · intro nm s2 hsucc
    cases hf : findRoom s rid with
    | none =>
      simp only [cancelBooking, hf] at hsucc
      exact absurd hsucc (by simp)
    | some room =>
      cases hscan : cancelScan t uid room.bookings with
      | notFound =>
        simp only [cancelBooking, hf, hscan] at hsucc
        exact absurd hsucc (by simp)
      | unauthorized =>
        simp only [cancelBooking, hf, hscan] at hsucc
        exact absurd hsucc (by simp)
      | removed rest =>
        simp only [cancelBooking, hf, hscan, Prod.mk.injEq,
          CancelResult.cancelled.injEq] at hsucc
        obtain ⟨hnm, hs2⟩ := hsucc
        obtain ⟨pre, bk, post, h1, h2, h3, h4, h5⟩ := cancelScan_removed hscan
        subst h2
        refine ⟨room, pre, bk, post, rfl, hnm.symm, h1, h5, h3, h4,
          hs2.symm, ?_⟩
        intro r2 hmem hne
        rw [← hs2]
        exact mem_updateRoom_of_ne hmem hne

/-- C10 witness: the success frame condition extracted for the concrete
cancellation of the stored NEST booking. -/
theorem cancel_frame_witness :
    ∃ r pre bk post, findRoom bookedCatalog "NEST" = some r ∧
      "The Nest" = r.name ∧ r.bookings = pre ++ bk :: post ∧
      (∀ x ∈ pre, x.start_time ≠ t1000) ∧ bk.start_time = t1000 ∧
      bk.user_id = "U1" ∧
      (cancelBooking bookedCatalog "NEST" t1000 "U1").2 =
        updateRoom bookedCatalog "NEST"
          (fun rr => { rr with bookings := pre ++ post }) ∧
      (∀ r2 ∈ bookedCatalog, r2.room_id ≠ "NEST" →
        r2 ∈ (cancelBooking bookedCatalog "NEST" t1000 "U1").2) :=
  (cancel_frame bookedCatalog "NEST" t1000 "U1").2 "The Nest"
    (cancelBooking bookedCatalog "NEST" t1000 "U1").2 (by decide)

theorem bookEach_partition (rid : String) (dur : Nat) (a b c u : String) :
    ∀ (dates : List DateTime) (s : Catalog),
      ((bookEach rid dur a b c u s dates).1).Sublist dates ∧
      ((bookEach rid dur a b c u s dates).2.1).Sublist dates ∧
      ((bookEach rid dur a b c u s dates).1).length +
        ((bookEach rid dur a b c u s dates).2.1).length = dates.length := by
  intro dates
  induction dates with
  | nil =>
    intro s
    exact ⟨List.nil_sublist [], List.nil_sublist [], rfl⟩
  | cons d ds ih =>
    intro s
    by_cases hc : checkRoomAvailability s rid d dur = true
    · cases hconf : (bookRoom s rid d dur a b c u).1 with
      | some cf =>
        obtain ⟨ih1, ih2, ih3⟩ := ih (bookRoom s rid d dur a b c u).2
        simp only [bookEach, if_pos hc, hconf]
        exact ⟨List.Sublist.cons₂ d ih1, List.Sublist.cons d ih2,
          by simp only [List.length_cons]; omega⟩
      | none =>
        obtain ⟨ih1, ih2, ih3⟩ := ih (bookRoom s rid d dur a b c u).2
        simp only [bookEach, if_pos hc, hconf]
        exact ⟨List.Sublist.cons d ih1, List.Sublist.cons₂ d ih2,
          by simp only [List.length_cons]; omega⟩
    · obtain ⟨ih1, ih2, ih3⟩ := ih s
      simp only [bookEach, if_neg hc]
      exact ⟨List.Sublist.cons d ih1, List.Sublist.cons₂ d ih2,
        by simp only [List.length_cons]; omega⟩

theorem bookRecurring_partition (rid : String) (dur : Nat) (a b c u : String)
    (endD : DateTime) (freq : Frequency) :
    ∀ (fuel : Nat) (s : Catalog) (cur : DateTime)
      (succ failedDates : List DateTime) (s2 : Catalog)
      (ds : List DateTime),
      bookRecurringMeetings rid dur a b c u endD freq fuel s cur =
        .ok succ failedDates s2 →
      expandDates fuel cur endD freq = .ok ds →
      succ.Sublist ds ∧ failedDates.Sublist ds ∧
        succ.length + failedDates.length = ds.length := by
  intro fuel
  induction fuel with
  | zero =>
    intro s cur succ failedDates s2 ds h1 h2
    simp [bookRecurringMeetings] at h1
  | succ f ih =>
    intro s cur succ failedDates s2 ds h1 h2
    by_cases hle : cur.date.leb endD.date = true
    · simp only [expandDates, if_pos hle] at h2
      cases hno : nextOccurrence cur freq with
      | none =>
        simp only [hno] at h2
        simp at h2
      | some nxt =>
        simp only [hno] at h2
        cases hexp : expandDates f nxt endD freq with
        | ok ds0 =>
          simp only [hexp] at h2
          simp only [ExpandResult.ok.injEq] at h2
          by_cases hchk : checkRoomAvailability s rid cur dur = true
          · simp only [bookRecurringMeetings, if_pos hle, if_pos hchk,
              hno] at h1
            cases hrec : bookRecurringMeetings rid dur a b c u endD freq f
                (bookRoom s rid cur dur a b c u).2 nxt with
            | ok succ0 failed0 st0 =>
              simp only [hrec] at h1
              obtain ⟨ih1, ih2, ih3⟩ :=
                ih (bookRoom s rid cur dur a b c u).2 nxt succ0 failed0 st0
                  ds0 hrec hexp
              cases hconf : (bookRoom s rid cur dur a b c u).1 with
              | some cf =>
                simp only [hconf] at h1
                simp only [RecurResult.ok.injEq] at h1
                obtain ⟨e1, e2, e3⟩ := h1
                subst e1
                subst e2
                rw [← h2]
                exact ⟨List.Sublist.cons₂ cur ih1, List.Sublist.cons cur ih2,
                  by simp only [List.length_cons]; omega⟩
              | none =>
                simp only [hconf] at h1
                simp only [RecurResult.ok.injEq] at h1
                obtain ⟨e1, e2, e3⟩ := h1
                subst e1
                subst e2
                rw [← h2]
                exact ⟨List.Sublist.cons cur ih1, List.Sublist.cons₂ cur ih2,
                  by simp only [List.length_cons]; omega⟩
            | valueError =>
              simp only [hrec] at h1
              simp at h1
            | outOfFuel =>
              simp only [hrec] at h1
              simp at h1
          · simp only [bookRecurringMeetings, if_pos hle, if_neg hchk,
              hno] at h1
            cases hrec : bookRecurringMeetings rid dur a b c u endD freq f
                s nxt with
            | ok succ0 failed0 st0 =>
              simp only [hrec] at h1
              obtain ⟨ih1, ih2, ih3⟩ :=
                ih s nxt succ0 failed0 st0 ds0 hrec hexp
              simp only [RecurResult.ok.injEq] at h1
              obtain ⟨e1, e2, e3⟩ := h1
              subst e1
              subst e2
              rw [← h2]
              exact ⟨List.Sublist.cons cur ih1, List.Sublist.cons₂ cur ih2,
                by simp only [List.length_cons]; omega⟩
            | valueError =>
              simp only [hrec] at h1
              simp at h1
            | outOfFuel =>
              simp only [hrec] at h1
              simp at h1
        | valueError =>
          simp only [hexp] at h2
          simp at h2
        | outOfFuel =>
          simp only [hexp] at h2
          simp at h2
    · simp only [bookRecurringMeetings, if_neg hle,
        RecurResult.ok.injEq] at h1
      simp only [expandDates, if_neg hle, ExpandResult.ok.injEq] at h2
      obtain ⟨e1, e2, e3⟩ := h1
      subst e1
      subst e2
      rw [← h2]
      simp

/-- C5: expanding the weekly recurrence 2024-11-04 to 2024-11-25 yields
exactly the four dates Nov 4, 11, 18, 25; the per-date booking loop of
the message handler partitions any occurrence list into successes and
failures that are order-preserving sublists whose lengths sum to the
whole list (so a conflict on one date never aborts the remaining dates);
and book_recurring_meetings itself, whenever it completes, partitions
the occurrence sequence produced by the same date arithmetic in the same
way. -/
theorem recurring_partition :
    expandDates 100 ⟨⟨2024, 11, 4⟩, 540⟩ ⟨⟨2024, 11, 25⟩, 540⟩ .weekly =
      .ok novDates ∧
    (∀ (rid : String) (dur : Nat) (a b c u : String) (s : Catalog)
        (dates : List DateTime),
      ((bookEach rid dur a b c u s dates).1).Sublist dates ∧
      ((bookEach rid dur a b c u s dates).2.1).Sublist dates ∧
      ((bookEach rid dur a b c u s dates).1).length +
        ((bookEach rid dur a b c u s dates).2.1).length = dates.length) ∧
    (∀ (rid : String) (dur : Nat) (a b c u : String) (endD : DateTime)
        (freq : Frequency) (fuel : Nat) (s : Catalog) (cur : DateTime)
        (succ failedDates : List DateTime) (s2 : Catalog)
        (ds : List DateTime),
      bookRecurringMeetings rid dur a b c u endD freq fuel s cur =
        .ok succ failedDates s2 →
      expandDates fuel cur endD freq = .ok ds →
      succ.Sublist ds ∧ failedDates.Sublist ds ∧
        succ.length + failedDates.length = ds.length) := by
  refine ⟨by decide, ?_, ?_⟩
  · intro rid dur a b c u s dates
    exact bookEach_partition rid dur a b c u dates s
  · intro rid dur a b c u endD freq fuel s cur succ failedDates s2 ds h1 h2
    exact bookRecurring_partition rid dur a b c u endD freq fuel s cur succ
      failedDates s2 ds h1 h2

/-- C5 witness: book_recurring_meetings run on the empty catalog over
the four-date weekly recurrence completes with every date failed, and
the partition conclusion holds for that run. -/
theorem recurring_partition_witness :
    List.Sublist ([] : List DateTime) novDates ∧
      novDates.Sublist novDates ∧
      List.length ([] : List DateTime) + novDates.length =
        novDates.length :=
  recurring_partition.2.2 "NEST" 60 "Sync" "internal" "Ann" "U1"
    ⟨⟨2024, 11, 25⟩, 540⟩ .weekly 100 [] ⟨⟨2024, 11, 4⟩, 540⟩ [] novDates
    [] novDates (by decide) (by decide)

/-- C9 witness: the amended Book case-insensitivity applied to the
variant Nest of the stored id NEST. -/
theorem case_insensitivity_witness :
    bookRoom defaultRooms "Nest" t1000 60 "Sync" "internal" "Ann" "U1" =
      bookRoom defaultRooms "NEST" t1000 60 "Sync" "internal" "Ann" "U1" :=
  case_insensitivity_amended.1 defaultRooms "Nest" "NEST" t1000 60 "Sync"
    "internal" "Ann" "U1" (by decide)

theorem dtLeb_same (d : Date) (m1 m2 : Nat) :
    DateTime.leb ⟨d, m1⟩ ⟨d, m2⟩ = decide (m1 ≤ m2) := by
  rcases Nat.lt_trichotomy m1 m2 with h | h | h
  · simp [DateTime.leb, DateTime.ltb, Date.ltb, h, Nat.le_of_lt h]
  · subst h
    simp [DateTime.leb, DateTime.ltb, Date.ltb]
  · have h1 : ¬ m1 < m2 := Nat.lt_asymm h
    have h2 : ¬ m1 ≤ m2 := Nat.not_le.mpr h
    have h3 : m1 ≠ m2 := Nat.ne_of_gt h
    simp [DateTime.leb, DateTime.ltb, Date.ltb, h1, h2, beq_iff_eq,
      DateTime.mk.injEq, h3]

theorem addMinutes_small (d : Date) (m k : Nat) (h : m + k < 1440) :
    DateTime.addMinutes ⟨d, m⟩ k = ⟨d, m + k⟩ := by
  simp [DateTime.addMinutes, Nat.div_eq_of_lt h, Nat.mod_eq_of_lt h,
    Date.addDays]

theorem ifSingletonAppend {c : Prop} [inst : Decidable c] (x : α)
    (L : List α) :
    (if c then [x] else []) ++ L = if c then x :: L else L := by
  by_cases h : c <;> simp [h]

theorem hourlyProbe_stop (s : Catalog) (rid : String) (dur : Nat) (d : Date)
    (k : Nat) : hourlyProbe s rid dur ⟨d, 1020⟩ k ⟨d, 1080⟩ = [] := by
  cases k with
  | zero => rfl
  | succ k =>
    have h : DateTime.leb ⟨d, 1080⟩ ⟨d, 1020⟩ = false := by
      rw [dtLeb_same]
      simp
    simp [hourlyProbe, h]

theorem hourlyProbe_candList (s : Catalog) (rid : String) (dur : Nat)
    (d : Date) :
    ∀ (n m fuel : Nat), m + 60 * n = 1020 → n < fuel →
      hourlyProbe s rid dur ⟨d, 1020⟩ fuel ⟨d, m⟩ =
        List.filter (fun c2 => checkRoomAvailability s rid c2 dur)
          (candList d m n) := by
  intro n
  induction n with
  | zero =>
    intro m fuel h1 h2
    have hm : m = 1020 := by omega
    subst hm
    obtain ⟨k, rfl⟩ : ∃ k, fuel = k + 1 := ⟨fuel - 1, by omega⟩
    have hle : DateTime.leb ⟨d, 1020⟩ ⟨d, 1020⟩ = true := by
      rw [dtLeb_same]
      simp
    have hadd : DateTime.addMinutes ⟨d, 1020⟩ 60 = ⟨d, 1080⟩ :=
      addMinutes_small d 1020 60 (by omega)
    simp only [hourlyProbe, hle, if_true, hadd, hourlyProbe_stop, candList]
    by_cases hchk : checkRoomAvailability s rid ⟨d, 1020⟩ dur = true <;>
      simp [List.filter_cons, hchk]
  | succ n ih =>
    intro m fuel h1 h2
    obtain ⟨k, rfl⟩ : ∃ k, fuel = k + 1 := ⟨fuel - 1, by omega⟩
    have hle : DateTime.leb ⟨d, m⟩ ⟨d, 1020⟩ = true := by
      rw [dtLeb_same]
      simp
      omega
    have hadd : DateTime.addMinutes ⟨d, m⟩ 60 = ⟨d, m + 60⟩ :=
      addMinutes_small d m 60 (by omega)
    have ihh := ih (m + 60) k (by omega) (by omega)
    simp only [hourlyProbe, hle, if_true, hadd, ihh, candList]
    rw [ifSingletonAppend]
    by_cases hchk : checkRoomAvailability s rid ⟨d, m⟩ dur = true <;>
      simp [List.filter_cons, hchk]

theorem hourlyProbe_eq_filter (s : Catalog) (rid : String) (dur : Nat)
    (d : Date) :
    hourlyProbe s rid dur ⟨d, 17 * 60⟩ 10 ⟨d, 9 * 60⟩ =
      List.filter (fun c2 => checkRoomAvailability s rid c2 dur)
        [⟨d, 540⟩, ⟨d, 600⟩, ⟨d, 660⟩, ⟨d, 720⟩, ⟨d, 780⟩, ⟨d, 840⟩,
         ⟨d, 900⟩, ⟨d, 960⟩, ⟨d, 1020⟩] := by
  have h := hourlyProbe_candList s rid dur d 8 540 10 (by norm_num)
    (by norm_num)
  norm_num [candList] at h
  exact h

theorem foldl_slotStep (dayEnd : DateTime) :
    ∀ (l : List (DateTime × DateTime))
      (p : List (DateTime × DateTime) × DateTime),
      (if (l.foldl slotStep p).2.ltb dayEnd then
        (l.foldl slotStep p).1 ++ [((l.foldl slotStep p).2, dayEnd)]
       else (l.foldl slotStep p).1) =
      p.1 ++ slotWalk dayEnd p.2 l := by
  intro l
  induction l with
  | nil =>
    intro p
    simp only [List.foldl_nil, slotWalk]
    by_cases h : p.2.ltb dayEnd = true <;> simp [h]
  | cons bk rest ih =>
    intro p
    obtain ⟨bs, be⟩ := bk
    rw [List.foldl_cons]
    rw [ih (slotStep p (bs, be))]
    simp only [slotWalk, slotStep]
    by_cases h1 : p.2.ltb bs = true <;> simp [h1, List.append_assoc]

theorem find?_decomp {p : α → Bool} {pre post : List α} {b : α}
    (hpre : ∀ x ∈ pre, p x = false) (hb : p b = true) :
    List.find? p (pre ++ b :: post) = some b := by
  induction pre with
  | nil =>
    rw [List.nil_append]
    exact List.find?_cons_of_pos post hb
  | cons x xs ih =>
    have hx := hpre x (List.mem_cons_self x xs)
    rw [List.cons_append, List.find?_cons_of_neg _ (by simp [hx])]
    exact ih (fun y hy => hpre y (List.mem_cons_of_mem x hy))

/-- C7: the claim as stated is false on the code: for a booking that
strictly spans the whole requested day, the algorithm described by the
claim, collecting the bookings whose interval overlaps the day, returns
no gaps, but get_available_slots, whose collection rule only compares
start and end dates for equality, misses that booking and reports the
entire business window free. -/
theorem available_slots_counterexample :
    getAvailableSlots spanCatalog "NEST" ⟨2024, 11, 4⟩ =
      [(⟨⟨2024, 11, 4⟩, 540⟩, ⟨⟨2024, 11, 4⟩, 1080⟩)] ∧
    getAvailableSlotsClaim spanCatalog "NEST" ⟨2024, 11, 4⟩ = [] ∧
    getAvailableSlots spanCatalog "NEST" ⟨2024, 11, 4⟩ ≠
      getAvailableSlotsClaim spanCatalog "NEST" ⟨2024, 11, 4⟩ :=
  ⟨by decide, by decide, by decide⟩

/-- C7 (amended): get_available_slots equals the described cursor walk
with the collection rule amended to the one the code applies, keeping a
booking when its start date or end date equals the requested day; the
back-to-back 09:00-10:00 and 10:00-11:00 bookings produce the single gap
from 11:00 with no zero-length gap; and the result is empty for an
unknown room. -/
theorem available_slots_amended :
    (∀ (s : Catalog) (rid : String) (d : Date),
      getAvailableSlots s rid d = getAvailableSlotsAmended s rid d) ∧
    getAvailableSlots btbCatalog "NEST" ⟨2024, 11, 4⟩ =
      [(⟨⟨2024, 11, 4⟩, 660⟩, ⟨⟨2024, 11, 4⟩, 1080⟩)] ∧
    (∀ (s : Catalog) (rid : String) (d : Date), findRoom s rid = none →
      getAvailableSlots s rid d = []) := by
  refine ⟨?_, by decide, ?_⟩
  · intro s rid d
    cases hf : findRoom s rid with
    | none => simp [getAvailableSlots, getAvailableSlotsAmended, hf]
    | some room =>
      simp only [getAvailableSlots, getAvailableSlotsAmended, hf,
        touchesDay, slotFold]
      rw [foldl_slotStep]
      simp
  · intro s rid d h
    simp [getAvailableSlots, h]

/-- C7 witness: the unknown-room conjunct applied to a room id absent
from the default catalog. -/
theorem available_slots_witness :
    getAvailableSlots defaultRooms "ATTIC" ⟨2024, 11, 4⟩ = [] :=
  available_slots_amended.2.2 defaultRooms "ATTIC" ⟨2024, 11, 4⟩ (by decide)

/-- C8: the claim as stated is false on the code: on the free default
catalog the suggester returns all nine hourly candidates, not at most
eight (the cap of eight is applied only by the message formatter), and
for a room made unavailable by a booking that overlaps the requested
hour without containing its start instant, the suggester reports no
conflicting booking even though an overlapping booking exists. -/
theorem alternative_suggestions_counterexample :
    (getAlternativeSuggestions defaultRooms "NEST" t1000
        60).available_times.length = 9 ∧
    checkRoomAvailability containCatalog "NEST" t1000 60 = false ∧
    (getAlternativeSuggestions containCatalog "NEST" t1000
        60).conflicting_booking = none :=
  ⟨by decide, by decide, by decide⟩

/-- C8 (amended): the suggester returns (a) the first stored booking of
the requested room whose interval contains the requested start instant,
with the room display name, or none when no stored booking contains it
or the room is unknown; (b) all hourly candidates, the hour boundaries
09:00 to 17:00 inclusive at which the availability check holds for the
requested duration, in ascending order, with no cap of eight; and (c)
exactly the other rooms of the catalog that are available at the
requested interval. -/
theorem alternative_suggestions_amended :
    ∀ (s : Catalog) (rid : String) (t : DateTime) (dur : Nat),
      (∀ bk nm,
        ((getAlternativeSuggestions s rid t dur).conflicting_booking =
            some (bk, nm) ↔
          ∃ room pre post, findRoom s rid = some room ∧ nm = room.name ∧
            room.bookings = pre ++ bk :: post ∧
            (bk.start_time.leb t && t.ltb bk.end_time) = true ∧
            ∀ x ∈ pre, (x.start_time.leb t && t.ltb x.end_time) = false)) ∧
      (∀ room, findRoom s rid = some room →
        (getAlternativeSuggestions s rid t dur).available_times =
          List.filter (fun c2 => checkRoomAvailability s rid c2 dur)
            [⟨t.date, 540⟩, ⟨t.date, 600⟩, ⟨t.date, 660⟩, ⟨t.date, 720⟩,
             ⟨t.date, 780⟩, ⟨t.date, 840⟩, ⟨t.date, 900⟩, ⟨t.date, 960⟩,
             ⟨t.date, 1020⟩]) ∧
      (findRoom s rid = none →
        (getAlternativeSuggestions s rid t dur).available_times = []) ∧
      (∀ r2, r2 ∈ (getAlternativeSuggestions s rid t dur).other_rooms ↔
        r2 ∈ s ∧ r2.room_id ≠ rid ∧
          checkRoomAvailability s r2.room_id t dur = true) := by
  intro s rid t dur
  refine ⟨?_, ?_, ?_, ?_⟩
  · intro bk nm
    simp only [getAlternativeSuggestions]
    cases hf : findRoom s rid with
    | none =>
      simp only [hf]
      constructor
      · intro h
        simp at h
      · rintro ⟨room2, pre, post, hr2, -⟩
        simp at hr2
    | some room =>
      simp only [hf]
      cases hfind : room.bookings.find?
          (fun b => b.start_time.leb t && t.ltb b.end_time) with
      | none =>
        simp only [hfind]
        constructor
        · intro h
          simp at h
        · rintro ⟨room2, pre, post, hr2, hnm, hdec, hbk, hpre⟩
          injection hr2 with hr2
          subst hr2
          have hmem : bk ∈ room.bookings := by
            rw [hdec]
            exact List.mem_append_right pre (List.mem_cons_self bk post)
          have hnone := List.find?_eq_none.mp hfind bk hmem
          exact absurd hbk (by simpa using hnone)
      | some b0 =>
        simp only [hfind]
        obtain ⟨hpb, as2, bs2, hdec0, has⟩ := List.find?_eq_some.mp hfind
        constructor
        · intro h
          simp only [Option.some.injEq, Prod.mk.injEq] at h
          obtain ⟨hb, hn⟩ := h
          refine ⟨room, as2, bs2, rfl, hn.symm, ?_, ?_, ?_⟩
          · rw [← hb]
            exact hdec0
          · rw [← hb]
            exact hpb
          · intro x hx
            have h9 := has x hx
            rw [Bool.not_eq_true'] at h9
            exact h9
        · rintro ⟨room2, pre, post, hr2, hnm, hdec, hbk, hpre⟩
          injection hr2 with hr2
          subst hr2
          have hfind2 : room.bookings.find?
              (fun b => b.start_time.leb t && t.ltb b.end_time) = some bk := by
            rw [hdec]
            exact find?_decomp hpre hbk
          rw [hfind] at hfind2
          injection hfind2 with he
          simp [he, hnm]
  · intro room hf
    simp only [getAlternativeSuggestions, getAvailableTimesForDay, hf]
    exact hourlyProbe_eq_filter s rid dur t.date
  · intro hf
    simp only [getAlternativeSuggestions, getAvailableTimesForDay, hf]
  · intro r2
    simp only [getAlternativeSuggestions, List.mem_filter,
      Bool.and_eq_true, Bool.not_eq_true', beq_eq_false_iff_ne]

/-- C8 witness: the hourly-candidate characterization applied to the
catalog whose NEST room is booked 10:30-11:00. -/
theorem alternative_suggestions_witness :
    (getAlternativeSuggestions containCatalog "NEST" t1000
        60).available_times =
      List.filter (fun c2 => checkRoomAvailability containCatalog "NEST" c2 60)
        [⟨t1000.date, 540⟩, ⟨t1000.date, 600⟩, ⟨t1000.date, 660⟩,
         ⟨t1000.date, 720⟩, ⟨t1000.date, 780⟩, ⟨t1000.date, 840⟩,
         ⟨t1000.date, 900⟩, ⟨t1000.date, 960⟩, ⟨t1000.date, 1020⟩] :=
  (alternative_suggestions_amended containCatalog "NEST" t1000 60).2.1
    containRoom (by decide)

end RoomBooking
